/-
Verification development for the near-image-duplicate detection pipeline.

Shallow embedding of the core funnel:
  - src/sieves.py        : fingerprint codec (compute_dhash, hamming_distance)
  - src/pipeline.py      : build_hash_db, DuplicateDetector.sieve / verify / detect
  - src/indexer.py       : Indexer (FAISS flat inner-product index + metadata list)
  - src/config.py        : thresholds and defaults

Modelling conventions:
  - Fingerprints are bit lists (the hex string of imagehash encodes exactly such a
    fixed-width bit pattern; width = 4 * hex length, 64 for the default 8x8 dhash).
  - Images are opaque values (PIL decoding is an external collaborator); the
    fingerprint function is a pure deterministic function of that value.
  - Embedding vectors use exact rationals in place of float32: every claim settled
    here depends only on comparisons and ordering of scores, not on rounding.
  - Python exceptions are Except values; a raised exception leaves previously
    executed assignments in place, which the state-passing definitions mirror.
  - Path.resolve is an external filesystem collaborator, passed in as a function.
  - Python dicts are insertion-ordered key-value lists with overwrite-on-equal-key.
  - Python list.sort is a stable sort; a stable sort by one key is unique, so it is
    embedded as stable insertion sort on the same key.
-/
import Mathlib

namespace NearDup

/-! ## Stable insertion sort (embedding of Python list.sort on a key) -/

/-- Insert an element into a list, placing it before the first element `b` with
`le a b`; with a reflexive-on-ties `le` and head-first folding this is the stable
insertion used to model Python sorting. -/
def insertLe (le : α → α → Bool) (a : α) : List α → List α
  | [] => [a]
  | b :: l => if le a b then a :: b :: l else b :: insertLe le a l

/-- Stable insertion sort on a boolean comparison. -/
def sortLe (le : α → α → Bool) : List α → List α
  | [] => []
  | a :: l => insertLe le a (sortLe le l)

/-! ## Fingerprint codec (src/sieves.py) -/

/-- Images are opaque decoded-pixel values supplied by the image source collaborator. -/
abbrev Img := Nat

/-- Fingerprints are fixed-width bit patterns (a hex hash string denotes its bits). -/
abbrev FP := List Bool

/-- Modelled from the spec: `compute_dhash` delegates to the external collaborators
PIL (grayscale canonicalization) and imagehash.dhash; per section 4.1 it is a pure,
deterministic function of the canonicalized image content producing a width-64 bit
pattern.  Represented as the low 64 bits of the opaque image value. -/
def compute_dhash (image : Img) : FP :=
  (List.range 64).map fun i => image.testBit i

/-- Embedding of `hamming_distance` (src/sieves.py lines 25-39): imagehash parses the
two hex strings and its subtraction raises a shape-mismatch TypeError when the bit
widths differ, otherwise returns the count of differing bits. -/
def hamming_distance (hash1 hash2 : FP) : Except String Nat :=
  if hash1.length = hash2.length then
    .ok ((hash1.zip hash2).countP fun p => p.1 != p.2)
  else
    .error "DimensionMismatch"

/-- Reference count of differing bits by simultaneous structural recursion, used to
state that `hamming_distance` returns the number of differing bits. -/
def diffBits : List Bool → List Bool → Nat
  | a :: as, b :: bs => (if a = b then 0 else 1) + diffBits as bs
  | _, _ => 0

/-! ## Configuration constants (src/config.py) -/

def HASH_HAMMING_THRESHOLD : Nat := 5

def SSCD_SIM_THRESHOLD : ℚ := 65 / 100

def TOP_K : Nat := 3

/-! ## Hash database (src/pipeline.py build_hash_db) -/

/-- The hash database is a Python dict mapping dhash hex string to image path:
an insertion-ordered association list with at most one entry per key. -/
abbrev HashDB := List (FP × String)

/-- Embedding of a Python dict key assignment `db[k] = v`: overwrites the value in
place when the key is present, otherwise appends a new entry. -/
def dictInsert (db : HashDB) (k : FP) (v : String) : HashDB :=
  if k ∈ db.map Prod.fst then
    db.map fun e => if e.1 = k then (k, v) else e
  else
    db ++ [(k, v)]

/-- Embedding of `build_hash_db` (src/pipeline.py lines 11-34) over the readable
image files of the folder, in directory-iteration order: each file contributes the
assignment `hash_db[compute_dhash img] = path`. -/
def build_hash_db (images : List (String × Img)) : HashDB :=
  images.foldl (fun db p => dictInsert db (compute_dhash p.2) p.1) []

/-! ## Sieve stage (src/pipeline.py DuplicateDetector.sieve) -/

/-- A sieve match: image path paired with its Hamming distance to the query. -/
abbrev SieveMatch := String × Nat

/-- Comparison key of the sieve sort: ascending distance. -/
def distLe (a b : SieveMatch) : Bool := a.2 ≤ b.2

/-- Loop body of the sieve (src/pipeline.py lines 64-71): scan the database in
insertion order, skip entries whose resolved path equals the resolved query path,
compute the Hamming distance (propagating its failure), keep entries within the
threshold. -/
def sieveScan (resolve : String → String) (q_hash : FP) (query_resolved : Option String) :
    HashDB → Except String (List SieveMatch)
  | [] => .ok []
  | (db_hash, img_path) :: rest =>
    match query_resolved with
    | some qr =>
      if resolve img_path = resolve qr then
        sieveScan resolve q_hash query_resolved rest
      else do
        let dist ← hamming_distance q_hash db_hash
        let ms ← sieveScan resolve q_hash query_resolved rest
        pure (if dist ≤ HASH_HAMMING_THRESHOLD then (img_path, dist) :: ms else ms)
    | none => do
      let dist ← hamming_distance q_hash db_hash
      let ms ← sieveScan resolve q_hash query_resolved rest
      pure (if dist ≤ HASH_HAMMING_THRESHOLD then (img_path, dist) :: ms else ms)

/-- Embedding of `DuplicateDetector.sieve` (src/pipeline.py lines 55-74): hash the
query image, resolve the query path when given, scan the database, sort matches by
ascending distance (stable), truncate to `max_matches`. -/
def sieve (resolve : String → String) (hash_db : HashDB) (query_image : Img)
    (query_path : Option String) (max_matches : Nat) : Except String (List SieveMatch) :=
  let q_hash := compute_dhash query_image
  let query_resolved := query_path.map resolve
  (sieveScan resolve q_hash query_resolved hash_db).map fun ms =>
    (sortLe distLe ms).take max_matches

/-- Specification-side description of the kept sieve entries, written from the
words of the spec for comparison with the scan: the stored entries whose Hamming
distance to the query fingerprint is at most the threshold, with entries matching
the exclude identifier removed, in insertion order. -/
def sieveSpecKept (resolve : String → String) (db : HashDB) (q : Img) (qp : String) :
    List SieveMatch :=
  ((db.filter fun e => !(resolve e.2 == resolve (resolve qp))).map
      fun e => (e.2, diffBits (compute_dhash q) e.1)).filter
    fun m => m.2 ≤ HASH_HAMMING_THRESHOLD

/-! ## Vector index (src/indexer.py) -/

/-- Embedding vectors: rational coordinates stand in for float32 components. -/
abbrev Vec := List ℚ

/-- Inner product of two vectors (FAISS IndexFlatIP metric). -/
def dot (a b : Vec) : ℚ :=
  ((a.zip b).map fun p => p.1 * p.2).sum

/-- Comparison key of the FAISS result ordering: descending score; stable folding
over the ascending-slot list breaks ties by ascending slot id. -/
def scoreGe (a b : ℚ × Int) : Bool := b.1 ≤ a.1

/-- State of `Indexer` (src/indexer.py): the FAISS flat index is its dimensionality
together with the slot-ordered stored vectors, and `metadata` is the parallel
filename list. -/
structure Indexer where
  dimension : Nat
  vectors : List Vec
  metadata : List String
deriving DecidableEq

/-- Exact flat-index search of FAISS: score every stored slot by inner product with
the query, order by descending score, return the best `k` pairs (score, slot id),
padding with slot id -1 when fewer than `k` vectors are stored. -/
def faissSearch (vecs : List Vec) (q : Vec) (k : Nat) : List (ℚ × Int) :=
  let scored := (List.range vecs.length).map fun i => (dot q (vecs.getD i []), (i : Int))
  let top := (sortLe scoreGe scored).take k
  top ++ List.replicate (k - top.length) (0, -1)

/-- One entry of an `Indexer.search` result: filename, score, slot id. -/
structure SearchResult where
  filename : String
  score : ℚ
  id : Int
deriving DecidableEq

/-- Embedding of `Indexer.search` (src/indexer.py lines 49-72): run the FAISS
search and keep the pairs whose id is not -1, looking the filename up in the
metadata list. -/
def Indexer.search (idx : Indexer) (query_vector : Vec) (k : Nat) : List SearchResult :=
  (faissSearch idx.vectors query_vector k).filterMap fun p =>
    if p.2 = -1 then none
    else some ⟨idx.metadata.getD p.2.toNat "", p.1, p.2⟩

/-- Embedding of `Indexer.add_vectors` (src/indexer.py lines 30-47): the count
check precedes both mutations, so the error case returns with the state untouched;
otherwise the vectors and the filenames are appended in parallel. -/
def Indexer.add_vectors (idx : Indexer) (vectors : List Vec) (filenames : List String) :
    Except String Indexer :=
  if vectors.length ≠ filenames.length then
    .error "Error: Number of vectors must match number of filenames."
  else
    .ok { idx with vectors := idx.vectors ++ vectors,
                   metadata := idx.metadata ++ filenames }

/-- On-disk snapshot area: existence flag and readable content for each of the two
files; `none` content means the read fails (file missing or unreadable). -/
structure Disk where
  indexExists : Bool
  indexData : Option (Nat × List Vec)
  metaExists : Bool
  metaData : Option (List String)
deriving DecidableEq

/-- Embedding of `Indexer.save` (src/indexer.py lines 74-79): write both files. -/
def Indexer.save (idx : Indexer) : Disk :=
  { indexExists := true, indexData := some (idx.dimension, idx.vectors),
    metaExists := true, metaData := some idx.metadata }

/-- Embedding of `Indexer.load` (src/indexer.py lines 81-87): assign the index
from `read_index`, then assign the metadata from the pickle.  A failing read
raises, leaving the assignments already executed in place, so the pair returned is
the state after the statements that ran plus the optional raised error. -/
def Indexer.load (idx : Indexer) (disk : Disk) : Indexer × Option String :=
  match disk.indexData with
  | none => (idx, some "read_index failed")
  | some (dim, vecs) =>
    let idx1 : Indexer := { idx with dimension := dim, vectors := vecs }
    match disk.metaData with
    | none => (idx1, some "metadata unpickling failed")
    | some md => ({ idx1 with metadata := md }, none)

/-- Embedding of `Indexer.__init__` (src/indexer.py lines 6-28): start from an
empty 512-dimensional inner-product index with empty metadata, and silently call
`load` exactly when both snapshot files exist. -/
def Indexer.init (disk : Disk) : Indexer × Option String :=
  let base : Indexer := { dimension := 512, vectors := [], metadata := [] }
  if disk.indexExists && disk.metaExists then base.load disk else (base, none)

/-- Parallel-list invariant of the Indexer: one metadata entry per stored slot. -/
def Indexer.Wf (idx : Indexer) : Prop :=
  idx.vectors.length = idx.metadata.length

/-! ## Duplicate funnel (src/pipeline.py DuplicateDetector) -/

/-- External collaborators of the funnel: filesystem path resolution, image
decoding, and the SSCD embedding provider. -/
structure Externals where
  resolve : String → String
  loadImage : String → Img
  embed : String → Vec

/-- State of `DuplicateDetector`: the hash database and the vector index. -/
structure DuplicateDetector where
  hash_db : HashDB
  indexer : Indexer

/-- Embedding of `DuplicateDetector.verify` (src/pipeline.py lines 76-90): embed
the query, search the index with an over-fetch of 5, drop self-matches by resolved
path, truncate to `top_k`. -/
def DuplicateDetector.verify (ext : Externals) (d : DuplicateDetector)
    (image_path : String) (top_k : Nat) : List SearchResult :=
  let query_vec := ext.embed image_path
  let query_path := ext.resolve image_path
  let results := d.indexer.search query_vec (top_k + 5)
  let filtered := results.filter fun r => !(ext.resolve r.filename == ext.resolve query_path)
  filtered.take top_k

/-- Verdict of the funnel (the dict returned by `detect`); the score is a Hamming
distance in the sieve stage and a cosine similarity in the verifier stage. -/
structure Verdict where
  is_duplicate : Bool
  stage : String
  matched : Option String
  score : Option (Nat ⊕ ℚ)
  sieve_matches : List SieveMatch
  verifier_matches : List SearchResult
deriving DecidableEq

/-- Embedding of `DuplicateDetector.detect` (src/pipeline.py lines 92-124): run the
sieve with `max_matches = top_k`; on any sieve match short-circuit with a sieve
verdict on the first (minimum-distance) match; otherwise verify, keep verifier
matches at or above the similarity threshold, and report the first survivor or a
unique verdict. -/
def DuplicateDetector.detect (ext : Externals) (d : DuplicateDetector)
    (image_path : String) (top_k : Nat) : Except String Verdict := do
  let query_image := ext.loadImage image_path
  let sieve_matches ← sieve ext.resolve d.hash_db query_image (some image_path) top_k
  match sieve_matches with
  | best :: rest =>
    pure { is_duplicate := true, stage := "sieve", matched := some best.1,
           score := some (.inl best.2), sieve_matches := best :: rest,
           verifier_matches := [] }
  | [] =>
    let verifier_matches := DuplicateDetector.verify ext d image_path top_k
    let valid_matches := verifier_matches.filter fun m => SSCD_SIM_THRESHOLD ≤ m.score
    pure { is_duplicate := !valid_matches.isEmpty,
           stage := if valid_matches.isEmpty then "unique" else "verifier",
           matched := valid_matches.head?.map SearchResult.filename,
           score := valid_matches.head?.map fun m => .inr m.score,
           sieve_matches := [],
           verifier_matches := valid_matches }

/-! ## Example inputs used by the concrete witnesses -/

/-- Externals with identity path resolution, a fixed decoded image, and a constant
one-dimensional unit embedding. -/
def extEx : Externals := ⟨id, fun _ => 0, fun _ => [1]⟩

/-- A hash database holding one image whose fingerprint equals that of image 0. -/
def dbEx : HashDB := [(compute_dhash 0, "other.jpg")]

/-- An indexer holding one stored unit vector named v.jpg. -/
def idxEx : Indexer := ⟨512, [[1]], ["v.jpg"]⟩

/-- An empty indexer. -/
def idxEmpty : Indexer := ⟨512, [], []⟩

/-- A disk whose index file is readable but whose metadata file is not. -/
def diskBroken : Disk := ⟨true, some (512, [[1]]), true, none⟩

/-- A disk holding a consistent one-vector snapshot. -/
def diskFull : Disk := ⟨true, some (512, [[1]]), true, some ["v.jpg"]⟩

/-! ## Lemmas on the stable insertion sort -/

theorem mem_insertLe {le : α → α → Bool} {a x : α} :
    ∀ {l : List α}, x ∈ insertLe le a l ↔ x = a ∨ x ∈ l
  | [] => by simp [insertLe]
  | b :: l => by
    by_cases h : le a b
    · simp [insertLe, h, List.mem_cons]
    · simp only [insertLe, h, if_neg, Bool.false_eq_true, if_false, List.mem_cons,
        mem_insertLe (l := l)]
      tauto

theorem perm_insertLe (le : α → α → Bool) (a : α) :
    ∀ l : List α, List.Perm (insertLe le a l) (a :: l)
  | [] => by simp [insertLe]
  | b :: l => by
    by_cases h : le a b
    · simp [insertLe, h]
    · simp only [insertLe, h, Bool.false_eq_true, if_false]
      exact ((perm_insertLe le a l).cons b).trans (List.Perm.swap a b l)

theorem perm_sortLe (le : α → α → Bool) : ∀ l : List α, List.Perm (sortLe le l) l
  | [] => by simp [sortLe]
  | a :: l => by
    simpa [sortLe] using (perm_insertLe le a (sortLe le l)).trans
      ((perm_sortLe le l).cons a)

theorem pairwise_insertLe {le : α → α → Bool}
    (htot : ∀ x y, le x y = true ∨ le y x = true)
    (htrans : ∀ x y z, le x y = true → le y z = true → le x z = true) (a : α) :
    ∀ {l : List α}, l.Pairwise (fun x y => le x y = true) →
      (insertLe le a l).Pairwise (fun x y => le x y = true)
  | [], _ => by simp [insertLe]
  | b :: l, hp => by
    rcases List.pairwise_cons.mp hp with ⟨hb, hl⟩
    by_cases h : le a b
    · simp only [insertLe, h, if_true]
      refine List.pairwise_cons.mpr ⟨?_, hp⟩
      intro x hx
      rcases List.mem_cons.mp hx with rfl | hx
      · exact h
      · exact htrans a b x h (hb x hx)
    · simp only [insertLe, h, Bool.false_eq_true, if_false]
      refine List.pairwise_cons.mpr ⟨?_, pairwise_insertLe htot htrans a hl⟩
      intro x hx
      rcases mem_insertLe.mp hx with rfl | hx
      · rcases htot x b with hxb | hbx
        · exact absurd hxb h
        · exact hbx
      · exact hb x hx

theorem pairwise_sortLe {le : α → α → Bool}
    (htot : ∀ x y, le x y = true ∨ le y x = true)
    (htrans : ∀ x y z, le x y = true → le y z = true → le x z = true) :
    ∀ l : List α, (sortLe le l).Pairwise (fun x y => le x y = true)
  | [] => by simp [sortLe]
  | a :: l => pairwise_insertLe htot htrans a (pairwise_sortLe htot htrans l)

theorem filter_insertLe {le : α → α → Bool} {p : α → Bool} {a : α}
    (hcls : ∀ b, p a = true → p b = true → le a b = true) :
    ∀ l : List α,
      (insertLe le a l).filter p = if p a then a :: l.filter p else l.filter p
  | [] => by
    by_cases h : p a <;> simp [insertLe, List.filter_cons, h]
  | b :: l => by
    by_cases h : le a b
    · by_cases hpa : p a <;> simp [insertLe, h, List.filter_cons, hpa]
    · have ih := filter_insertLe hcls l
      by_cases hpa : p a
      · have hpb : p b = false := by
          rcases Bool.eq_false_or_eq_true (p b) with hb | hb
          · exact absurd (hcls b hpa hb) h
          · exact hb
        simp [insertLe, h, List.filter_cons, hpa, hpb, ih]
      · simp only [insertLe, h, Bool.false_eq_true, if_false, List.filter_cons]
        by_cases hpb : p b <;>
          simp [hpb, ih, hpa]

theorem filter_sortLe {le : α → α → Bool} {p : α → Bool}
    (hcls : ∀ a b, p a = true → p b = true → le a b = true) :
    ∀ l : List α, (sortLe le l).filter p = l.filter p
  | [] => by simp [sortLe]
  | a :: l => by
    rw [sortLe, filter_insertLe (fun b => hcls a b), filter_sortLe hcls l,
      List.filter_cons]

/-! ## Fingerprint codec lemmas -/

theorem compute_dhash_length (x : Img) : (compute_dhash x).length = 64 := by
  simp [compute_dhash]

theorem countP_zip_eq_diffBits :
    ∀ a b : List Bool, ((a.zip b).countP fun p => p.1 != p.2) = diffBits a b
  | [], b => by cases b <;> simp [diffBits]
  | a :: as, [] => by simp [diffBits]
  | a :: as, b :: bs => by
    rw [List.zip_cons_cons, List.countP_cons, countP_zip_eq_diffBits as bs]
    by_cases h : a = b <;> simp [diffBits, h, Nat.add_comm]

theorem hamming_eq_diffBits {a b : FP} (h : a.length = b.length) :
    hamming_distance a b = .ok (diffBits a b) := by
  simp [hamming_distance, h, countP_zip_eq_diffBits]

theorem diffBits_comm : ∀ a b : List Bool, diffBits a b = diffBits b a
  | [], b => by cases b <;> simp [diffBits]
  | a :: as, [] => by simp [diffBits]
  | a :: as, b :: bs => by
    have h : (a = b) ↔ (b = a) := ⟨Eq.symm, Eq.symm⟩
    simp [diffBits, diffBits_comm as bs, h]

theorem diffBits_le_length : ∀ a b : List Bool, diffBits a b ≤ a.length
  | [], b => by cases b <;> simp [diffBits]
  | a :: as, [] => by simp [diffBits]
  | a :: as, b :: bs => by
    have := diffBits_le_length as bs
    by_cases h : a = b <;> simp [diffBits, h] <;> omega

theorem diffBits_self : ∀ a : List Bool, diffBits a a = 0
  | [] => by simp [diffBits]
  | a :: as => by simp [diffBits, diffBits_self as]

/-- C6: Hamming distance is symmetric, bounded by the fingerprint width, and every
fingerprint is at distance zero from itself; in particular the fingerprint of any
image has self-distance zero. -/
theorem hamming_symm_bounded_selfzero (a b : FP) (d : Nat) (x : Img)
    (h : hamming_distance a b = .ok d) :
    hamming_distance b a = .ok d ∧ d ≤ a.length ∧
      hamming_distance (compute_dhash x) (compute_dhash x) = .ok 0 := by
  have hlen : a.length = b.length := by
    by_contra hne
    simp [hamming_distance, hne] at h
  have hd : d = diffBits a b := by
    rw [hamming_eq_diffBits hlen] at h
    exact (Except.ok.injEq _ _).mp h.symm
  refine ⟨?_, ?_, ?_⟩
  · rw [hamming_eq_diffBits hlen.symm, diffBits_comm, hd]
  · rw [hd]; exact diffBits_le_length a b
  · rw [hamming_eq_diffBits rfl, diffBits_self]

theorem hamming_symm_bounded_selfzero_witness :
    hamming_distance [true, false] [true, true] = .ok 1 ∧
      (hamming_distance [true, true] [true, false] = .ok 1 ∧ 1 ≤ 2 ∧
        hamming_distance (compute_dhash 5) (compute_dhash 5) = .ok 0) :=
  ⟨by rfl,
   by
    simpa using hamming_symm_bounded_selfzero [true, false] [true, true] 1 5 (by rfl)⟩

/-- C7: on fingerprints of differing widths the Hamming distance fails with the
dimension-mismatch error instead of returning a number, and on same-width inputs it
returns the count of differing bits. -/
theorem hamming_mismatch_or_count (a b : FP) :
    (a.length ≠ b.length → hamming_distance a b = .error "DimensionMismatch") ∧
      (a.length = b.length → hamming_distance a b = .ok (diffBits a b)) := by
  constructor
  · intro h; simp [hamming_distance, h]
  · intro h; exact hamming_eq_diffBits h

theorem hamming_mismatch_or_count_witness :
    hamming_distance [true] [] = .error "DimensionMismatch" ∧
      hamming_distance [true] [false] = .ok 1 := by
  refine ⟨(hamming_mismatch_or_count [true] []).1 (by simp), ?_⟩
  have h := (hamming_mismatch_or_count [true] [false]).2 (by decide)
  simpa [diffBits] using h

/-! ## Hash database lemmas -/

theorem keys_dictInsert (db : HashDB) (k : FP) (v : String) :
    (dictInsert db k v).map Prod.fst =
      if k ∈ db.map Prod.fst then db.map Prod.fst else db.map Prod.fst ++ [k] := by
  by_cases h : k ∈ db.map Prod.fst
  · simp only [dictInsert, h, if_true, List.map_map]
    refine List.map_congr_left ?_
    intro e _
    by_cases he : e.1 = k <;> simp [he]
  · simp [dictInsert, h]

theorem nodup_keys_dictInsert {db : HashDB} (k : FP) (v : String)
    (h : (db.map Prod.fst).Nodup) : ((dictInsert db k v).map Prod.fst).Nodup := by
  rw [keys_dictInsert]
  by_cases hk : k ∈ db.map Prod.fst
  · simpa [hk] using h
  · rw [if_neg hk]
    refine h.append (List.nodup_singleton k) ?_
    intro a ha hak
    rw [List.mem_singleton] at hak
    exact hk (hak ▸ ha)

theorem mem_keys_dictInsert_self (db : HashDB) (k : FP) (v : String) :
    k ∈ (dictInsert db k v).map Prod.fst := by
  rw [keys_dictInsert]
  by_cases hk : k ∈ db.map Prod.fst <;> simp [hk]

theorem mem_keys_dictInsert_of_mem {db : HashDB} {k' : FP} (k : FP) (v : String)
    (h : k' ∈ db.map Prod.fst) : k' ∈ (dictInsert db k v).map Prod.fst := by
  rw [keys_dictInsert]
  by_cases hk : k ∈ db.map Prod.fst <;> simp [hk, h]

theorem mem_dictInsert_sound {db : HashDB} {e : FP × String} {k : FP} {v : String}
    (h : e ∈ dictInsert db k v) : e ∈ db ∨ e = (k, v) := by
  by_cases hk : k ∈ db.map Prod.fst
  · simp only [dictInsert, hk, if_true] at h
    rcases List.mem_map.mp h with ⟨x, hx, hfx⟩
    by_cases hxk : x.1 = k
    · right; simp [hxk] at hfx; exact hfx.symm
    · left
      rw [if_neg hxk] at hfx
      exact hfx ▸ hx
  · simp only [dictInsert, hk, Bool.false_eq_true, if_false, List.mem_append,
      List.mem_singleton] at h
    exact h

/-- Folding step of build_hash_db. -/
theorem build_hash_db_eq_foldl (images : List (String × Img)) :
    build_hash_db images =
      images.foldl (fun db p => dictInsert db (compute_dhash p.2) p.1) [] := rfl

theorem nodup_keys_foldl :
    ∀ (images : List (String × Img)) (db : HashDB), (db.map Prod.fst).Nodup →
      (((images.foldl (fun db p => dictInsert db (compute_dhash p.2) p.1) db)).map
        Prod.fst).Nodup
  | [], _, h => h
  | p :: rest, db, h =>
    nodup_keys_foldl rest _ (nodup_keys_dictInsert (compute_dhash p.2) p.1 h)

theorem mem_keys_foldl_of_mem :
    ∀ (images : List (String × Img)) (db : HashDB) {k : FP}, k ∈ db.map Prod.fst →
      k ∈ ((images.foldl (fun db p => dictInsert db (compute_dhash p.2) p.1) db)).map
        Prod.fst
  | [], _, _, h => h
  | p :: rest, db, _, h =>
    mem_keys_foldl_of_mem rest _ (mem_keys_dictInsert_of_mem (compute_dhash p.2) p.1 h)

theorem mem_keys_foldl_of_inserted :
    ∀ (images : List (String × Img)) (db : HashDB) {p : String × Img}, p ∈ images →
      compute_dhash p.2 ∈
        ((images.foldl (fun db p => dictInsert db (compute_dhash p.2) p.1) db)).map
          Prod.fst
  | q :: rest, db, p, h => by
    rcases List.mem_cons.mp h with rfl | h
    · exact mem_keys_foldl_of_mem rest _ (mem_keys_dictInsert_self db _ _)
    · exact mem_keys_foldl_of_inserted rest _ h

theorem mem_foldl_sound :
    ∀ (images : List (String × Img)) (db : HashDB) {e : FP × String},
      e ∈ images.foldl (fun db p => dictInsert db (compute_dhash p.2) p.1) db →
      e ∈ db ∨ ∃ p ∈ images, e = (compute_dhash p.2, p.1)
  | [], _, _, h => Or.inl h
  | q :: rest, db, e, h => by
    rcases mem_foldl_sound rest _ h with hdb | ⟨p, hp, rfl⟩
    · rcases mem_dictInsert_sound hdb with h1 | h1
      · exact Or.inl h1
      · exact Or.inr ⟨q, List.mem_cons_self q rest, h1⟩
    · exact Or.inr ⟨p, List.mem_cons_of_mem q hp, rfl⟩

/-- C3 counterexample: inserting two distinct identifiers with equal fingerprints
does not retain both entries; the dict assignment overwrites, keeping only the
later identifier. -/
theorem build_hash_db_overwrite_counterexample :
    build_hash_db [("a.jpg", 0), ("b.jpg", 0)] = [(compute_dhash 0, "b.jpg")] ∧
      "a.jpg" ∉ (build_hash_db [("a.jpg", 0), ("b.jpg", 0)]).map Prod.snd := by
  constructor
  · rfl
  · intro h
    have : (build_hash_db [("a.jpg", 0), ("b.jpg", 0)]).map Prod.snd = ["b.jpg"] := rfl
    rw [this] at h
    simp at h

/-- C3 amended: the hash database keeps at most one entry per fingerprint (the
fingerprints stored are pairwise distinct), every readable image contributes its
fingerprint as a present key, and every stored entry comes from one of the images;
a second distinct identifier with an equal fingerprint overwrites the first. -/
theorem build_hash_db_dedups (images : List (String × Img)) :
    ((build_hash_db images).map Prod.fst).Nodup ∧
      (∀ p ∈ images, ∃ v, (compute_dhash p.2, v) ∈ build_hash_db images) ∧
      ∀ e ∈ build_hash_db images, ∃ p ∈ images, e = (compute_dhash p.2, p.1) := by
  refine ⟨nodup_keys_foldl images [] (by simp), ?_, ?_⟩
  · intro p hp
    have h := mem_keys_foldl_of_inserted images [] hp
    rcases List.mem_map.mp h with ⟨e, he, hfst⟩
    exact ⟨e.2, by rwa [show (compute_dhash p.2, e.2) = e by rw [← hfst]]⟩
  · intro e he
    rcases mem_foldl_sound images [] he with h | h
    · simp at h
    · exact h

theorem build_hash_db_dedups_witness :
    ((build_hash_db [("a.jpg", 2), ("b.jpg", 2)]).map Prod.fst).Nodup ∧
      ∃ v, (compute_dhash 2, v) ∈ build_hash_db [("a.jpg", 2), ("b.jpg", 2)] := by
  have h := build_hash_db_dedups [("a.jpg", 2), ("b.jpg", 2)]
  exact ⟨h.1, h.2.1 ("a.jpg", 2) (by simp)⟩

/-! ## Sieve lemmas -/

theorem distLe_total (x y : SieveMatch) : distLe x y = true ∨ distLe y x = true := by
  rcases Nat.le_total x.2 y.2 with h | h
  · left; simpa [distLe] using h
  · right; simpa [distLe] using h

theorem distLe_trans (x y z : SieveMatch) (h1 : distLe x y = true)
    (h2 : distLe y z = true) : distLe x z = true := by
  simp only [distLe, decide_eq_true_eq] at h1 h2 ⊢
  omega

theorem sieveScan_eq (resolve : String → String) (q : Img) (qp : String) :
    ∀ db : HashDB, (∀ e ∈ db, e.1.length = 64) →
      sieveScan resolve (compute_dhash q) (some (resolve qp)) db =
        .ok (sieveSpecKept resolve db q qp)
  | [], _ => by simp [sieveScan, sieveSpecKept]
  | (db_hash, img_path) :: rest, hw => by
    have hrest := sieveScan_eq resolve q qp rest fun e he => hw e (List.mem_cons_of_mem _ he)
    have hlen : (compute_dhash q).length = db_hash.length := by
      rw [compute_dhash_length, hw (db_hash, img_path) (List.mem_cons_self _ _)]
    by_cases hex : resolve img_path = resolve (resolve qp)
    · simp [sieveScan, hex, hrest, sieveSpecKept, List.filter_cons, hex]
    · simp only [sieveScan, hex, if_false]
      rw [hamming_eq_diffBits hlen]
      simp only [Bind.bind, Except.bind, hrest]
      by_cases hth : diffBits (compute_dhash q) db_hash ≤ HASH_HAMMING_THRESHOLD <;>
        simp [sieveSpecKept, List.filter_cons, hex, hth, Bind.bind, Except.bind, Pure.pure, Except.pure]

/-- Any successful sieve result is sorted by ascending distance. -/
theorem sieve_ok_sorted {resolve : String → String} {db : HashDB} {qimg : Img}
    {qp : Option String} {lim : Nat} {l : List SieveMatch}
    (h : sieve resolve db qimg qp lim = .ok l) :
    l.Pairwise fun a b => a.2 ≤ b.2 := by
  rcases hscan : sieveScan resolve (compute_dhash qimg) (qp.map resolve) db with e | ms
  · simp [sieve, hscan, Except.map] at h
  · have hl : l = (sortLe distLe ms).take lim := by
      simp [sieve, hscan, Except.map] at h
      exact h.symm
    subst hl
    have hp := pairwise_sortLe distLe_total (fun x y z => distLe_trans x y z)
      (l := ms)
    exact ((hp).sublist (List.take_sublist _ _)).imp fun hxy => by
      simpa [distLe] using hxy

/-- C4: a sieve query returns the truncation to the limit of a list that holds
exactly the stored entries within the Hamming threshold with self-matches removed,
sorted by ascending distance with ties kept in stable insertion order. -/
theorem sieve_query_characterization (resolve : String → String) (db : HashDB)
    (q : Img) (qp : String) (lim : Nat) (hw : ∀ e ∈ db, e.1.length = 64) :
    ∃ full : List SieveMatch,
      sieve resolve db q (some qp) lim = .ok (full.take lim) ∧
      List.Perm full (sieveSpecKept resolve db q qp) ∧
      (full.Pairwise fun a b => a.2 ≤ b.2) ∧
      ∀ d : Nat, full.filter (fun m => m.2 == d) =
        (sieveSpecKept resolve db q qp).filter fun m => m.2 == d := by
  refine ⟨sortLe distLe (sieveSpecKept resolve db q qp), ?_, perm_sortLe _ _, ?_, ?_⟩
  · simp [sieve, sieveScan_eq resolve q qp db hw, Except.map]
  · exact (pairwise_sortLe distLe_total (fun x y z => distLe_trans x y z) _).imp
      fun hxy => by simpa [distLe] using hxy
  · intro d
    refine filter_sortLe ?_ _
    intro a b ha hb
    have ha2 : a.2 = d := by simpa using ha
    have hb2 : b.2 = d := by simpa using hb
    simp [distLe, ha2, hb2]

theorem sieve_query_characterization_witness :
    ∃ full : List SieveMatch,
      sieve id dbEx 0 (some "q.jpg") 3 = .ok (full.take 3) ∧
      List.Perm full (sieveSpecKept id dbEx 0 "q.jpg") ∧
      (full.Pairwise fun a b => a.2 ≤ b.2) ∧
      ∀ d : Nat, full.filter (fun m => m.2 == d) =
        (sieveSpecKept id dbEx 0 "q.jpg").filter fun m => m.2 == d :=
  sieve_query_characterization id dbEx 0 "q.jpg" 3 (by
    intro e he
    rcases List.mem_singleton.mp he with rfl
    exact compute_dhash_length 0)

/-! ## Indexer lemmas -/

theorem scoreGe_total (x y : ℚ × Int) : scoreGe x y = true ∨ scoreGe y x = true := by
  rcases le_total x.1 y.1 with h | h
  · right; simpa [scoreGe] using h
  · left; simpa [scoreGe] using h

theorem scoreGe_trans (x y z : ℚ × Int) (h1 : scoreGe x y = true)
    (h2 : scoreGe y z = true) : scoreGe x z = true := by
  simp only [scoreGe, decide_eq_true_eq] at h1 h2 ⊢
  exact le_trans h2 h1

theorem filterMap_search_replicate (md : List String) (n : Nat) :
    ((List.replicate n ((0 : ℚ), (-1 : Int))).filterMap fun p =>
        if p.2 = -1 then none
        else some (⟨md.getD p.2.toNat "", p.1, p.2⟩ : SearchResult)) = [] := by
  induction n with
  | zero => simp
  | succ n ih => simpa [List.replicate_succ] using ih

theorem search_eq_filterMap_top (idx : Indexer) (q : Vec) (k : Nat) :
    idx.search q k =
      ((sortLe scoreGe ((List.range idx.vectors.length).map fun i =>
          (dot q (idx.vectors.getD i []), (i : Int)))).take k).filterMap fun p =>
        if p.2 = -1 then none
        else some (⟨idx.metadata.getD p.2.toNat "", p.1, p.2⟩ : SearchResult) := by
  simp only [Indexer.search, faissSearch, List.filterMap_append,
    filterMap_search_replicate, List.append_nil]

/-- C8: searching an empty index returns the empty list rather than an error, and
in general at most min(k, number of stored vectors) results come back. -/
theorem search_empty_and_bounded (idx : Indexer) (q : Vec) (k : Nat) (hk : 1 ≤ k) :
    (idx.vectors = [] → idx.search q k = []) ∧
      (idx.search q k).length ≤ min k idx.vectors.length := by
  constructor
  · intro hempty
    rw [search_eq_filterMap_top, hempty]
    simp [sortLe]
  · rw [search_eq_filterMap_top]
    refine le_trans (List.length_filterMap_le _ _) ?_
    rw [List.length_take]
    have hperm := (perm_sortLe scoreGe ((List.range idx.vectors.length).map fun i =>
      (dot q (idx.vectors.getD i []), (i : Int)))).length_eq
    have hlen2 : (sortLe scoreGe ((List.range idx.vectors.length).map fun i =>
        (dot q (idx.vectors.getD i []), (i : Int)))).length = idx.vectors.length := by
      rw [hperm]; simp
    rw [hlen2]

theorem search_empty_and_bounded_witness : Indexer.search idxEmpty [1] 3 = [] :=
  (search_empty_and_bounded idxEmpty [1] 3 (by decide)).1 rfl

/-- C9: the count check of add_vectors precedes any mutation, so a mismatch yields
the error with the state untouched; a successful add appends vectors and
identifiers in parallel, preserving the one-identifier-per-slot invariant and
leaving every previously assigned slot unchanged; a load of a snapshot written by
save restores exactly the saved parallel state. -/
theorem indexer_operations_invariant (idx idx2 : Indexer) (vs : List Vec)
    (fs : List String) (hwf : idx.Wf) :
    (vs.length ≠ fs.length →
      idx.add_vectors vs fs =
        .error "Error: Number of vectors must match number of filenames.") ∧
    (∀ idx', idx.add_vectors vs fs = .ok idx' →
      idx'.Wf ∧ idx'.vectors = idx.vectors ++ vs ∧
        idx'.metadata = idx.metadata ++ fs) ∧
    ((idx2.load idx.save).1 = ⟨idx.dimension, idx.vectors, idx.metadata⟩ ∧
      (idx2.load idx.save).2 = none ∧ (idx2.load idx.save).1.Wf) := by
  refine ⟨?_, ?_, ?_, rfl, ?_⟩
  · intro hne
    simp [Indexer.add_vectors, hne]
  · intro idx' hok
    by_cases hne : vs.length = fs.length
    · simp only [Indexer.add_vectors, hne, ne_eq, not_true_eq_false, if_false,
        Except.ok.injEq] at hok
      subst hok
      refine ⟨?_, rfl, rfl⟩
      simp only [Indexer.Wf, List.length_append, hne]
      rw [hwf]
    · simp [Indexer.add_vectors, hne] at hok
  · simp [Indexer.load, Indexer.save]
  · simpa [Indexer.load, Indexer.save, Indexer.Wf] using hwf

theorem indexer_operations_invariant_witness :
    Indexer.add_vectors idxEmpty [[1]] [] =
      .error "Error: Number of vectors must match number of filenames." :=
  (indexer_operations_invariant idxEmpty idxEmpty [[1]] [] rfl).1 (by decide)

/-- C5 counterexample: loading from a snapshot whose index file is readable but
whose metadata file is not fails with an error, yet the freshly read vector index
has already been adopted, so the failed load is not atomic and the prior state is
not preserved. -/
theorem load_partial_adoption_counterexample :
    (idxEmpty.load diskBroken).2 = some "metadata unpickling failed" ∧
      (idxEmpty.load diskBroken).1.vectors = [[1]] ∧ idxEmpty.vectors = [] :=
  ⟨rfl, rfl, rfl⟩

/-- C5 amended: load adopts the two snapshot parts sequentially, index first; when
both reads succeed, both parts are adopted; when the metadata read fails after the
index file was read, the new vector index stays adopted while the identifier list
keeps its prior value; only a failure of the index read itself leaves the state
fully unchanged. -/
theorem load_adopts_index_then_metadata (idx : Indexer) (disk : Disk) :
    (disk.indexData = none → idx.load disk = (idx, some "read_index failed")) ∧
    (∀ dim vecs, disk.indexData = some (dim, vecs) → disk.metaData = none →
      idx.load disk = ({ idx with dimension := dim, vectors := vecs },
        some "metadata unpickling failed")) ∧
    (∀ dim vecs md, disk.indexData = some (dim, vecs) → disk.metaData = some md →
      idx.load disk = (⟨dim, vecs, md⟩, none)) := by
  refine ⟨?_, ?_, ?_⟩
  · intro h; simp [Indexer.load, h]
  · intro dim vecs h1 h2; simp [Indexer.load, h1, h2]
  · intro dim vecs md h1 h2; simp [Indexer.load, h1, h2]

theorem load_adopts_index_then_metadata_witness :
    idxEmpty.load diskBroken =
      ({ idxEmpty with dimension := 512, vectors := [[1]] },
        some "metadata unpickling failed") :=
  (load_adopts_index_then_metadata idxEmpty diskBroken).2.1 512 [[1]] rfl rfl

/-- C10: constructing an Indexer when both snapshot files exist silently adopts
the snapshot (so a fresh Indexer is not necessarily empty), and when either file
is absent it silently starts with an empty 512-dimensional index and an empty
identifier list, signalling nothing. -/
theorem init_adopts_or_empty (disk : Disk) :
    (∀ dim vecs md, disk.indexExists = true → disk.metaExists = true →
      disk.indexData = some (dim, vecs) → disk.metaData = some md →
      Indexer.init disk = (⟨dim, vecs, md⟩, none)) ∧
    ((disk.indexExists = false ∨ disk.metaExists = false) →
      Indexer.init disk = (⟨512, [], []⟩, none)) := by
  constructor
  · intro dim vecs md h1 h2 h3 h4
    simp [Indexer.init, h1, h2, Indexer.load, h3, h4]
  · intro h
    rcases h with h | h <;> simp [Indexer.init, h]

theorem init_adopts_or_empty_witness :
    Indexer.init diskFull = (⟨512, [[1]], ["v.jpg"]⟩, none) :=
  (init_adopts_or_empty diskFull).1 512 [[1]] ["v.jpg"] rfl rfl rfl rfl

/-! ## Funnel lemmas -/

/-- Search results come back ordered by non-increasing score. -/
theorem search_pairwise (idx : Indexer) (q : Vec) (k : Nat) :
    (idx.search q k).Pairwise fun a b => b.score ≤ a.score := by
  rw [search_eq_filterMap_top]
  refine List.pairwise_filterMap.mpr ?_
  refine ((pairwise_sortLe scoreGe_total (fun x y z => scoreGe_trans x y z)
    _).sublist (List.take_sublist _ _)).imp ?_
  intro p p' hpp x hx y hy
  have hxs : x.score = p.1 := by
    by_cases hp1 : p.2 = -1 <;> simp [hp1] at hx
    rw [← hx]
  have hys : y.score = p'.1 := by
    by_cases hp1 : p'.2 = -1 <;> simp [hp1] at hy
    rw [← hy]
  rw [hxs, hys]
  simpa [scoreGe] using hpp

/-- Over a list sorted by non-increasing score, truncating before the threshold
filter changes neither emptiness nor the first survivor, because any element past
the head that clears the threshold forces the head to clear it too. -/
theorem filter_take_sorted (l : List SearchResult) (n : Nat) (hn : 1 ≤ n)
    (hp : l.Pairwise fun a b => b.score ≤ a.score) :
    (((l.take n).filter fun r => SSCD_SIM_THRESHOLD ≤ r.score) = [] ↔
      (l.filter fun r => SSCD_SIM_THRESHOLD ≤ r.score) = []) ∧
    ((l.take n).filter fun r => SSCD_SIM_THRESHOLD ≤ r.score).head? =
      (l.filter fun r => SSCD_SIM_THRESHOLD ≤ r.score).head? := by
  rcases l with _ | ⟨a, t⟩
  · simp
  · obtain ⟨m, rfl⟩ : ∃ m, n = m + 1 := ⟨n - 1, by omega⟩
    rw [List.take_succ_cons]
    by_cases hth : SSCD_SIM_THRESHOLD ≤ a.score
    · simp [List.filter_cons, hth]
    · have hta : ∀ x ∈ t, x.score ≤ a.score := fun x hx =>
        (List.pairwise_cons.mp hp).1 x hx
      have htf : ∀ x ∈ t, ¬(SSCD_SIM_THRESHOLD ≤ x.score) := fun x hx hc =>
        hth (le_trans hc (hta x hx))
      have h1 : t.filter (fun r => SSCD_SIM_THRESHOLD ≤ r.score) = [] := by
        rw [List.filter_eq_nil_iff]
        intro x hx
        simpa using htf x hx
      have h2 : (t.take m).filter (fun r => SSCD_SIM_THRESHOLD ≤ r.score) = [] := by
        rw [List.filter_eq_nil_iff]
        intro x hx
        simpa using htf x (List.take_subset m t hx)
      simp [List.filter_cons, hth, h1, h2]

/-- C1: when the sieve returns at least one match, detect short-circuits with a
sieve-stage duplicate verdict reporting the minimum-distance candidate and its
distance, and the verdict does not depend on the vector index or on the embedding
provider (the verifier stage is never invoked). -/
theorem detect_sieve_short_circuit (ext : Externals) (d : DuplicateDetector)
    (path : String) (top_k : Nat) (best : SieveMatch) (rest : List SieveMatch)
    (h : sieve ext.resolve d.hash_db (ext.loadImage path) (some path) top_k =
      .ok (best :: rest)) :
    DuplicateDetector.detect ext d path top_k =
      .ok ⟨true, "sieve", some best.1, some (.inl best.2), best :: rest, []⟩ ∧
    (∀ m ∈ best :: rest, best.2 ≤ m.2) ∧
    ∀ (idx2 : Indexer) (embed2 : String → Vec),
      DuplicateDetector.detect ⟨ext.resolve, ext.loadImage, embed2⟩
        ⟨d.hash_db, idx2⟩ path top_k = DuplicateDetector.detect ext d path top_k := by
  have hdet : DuplicateDetector.detect ext d path top_k =
      .ok ⟨true, "sieve", some best.1, some (.inl best.2), best :: rest, []⟩ := by
    simp [DuplicateDetector.detect, h, Bind.bind, Except.bind, Pure.pure, Except.pure]
  refine ⟨hdet, ?_, ?_⟩
  · intro m hm
    rcases List.mem_cons.mp hm with rfl | hm
    · exact le_refl _
    · exact (List.pairwise_cons.mp (sieve_ok_sorted h)).1 m hm
  · intro idx2 embed2
    rw [hdet]
    simp [DuplicateDetector.detect, h, Bind.bind, Except.bind, Pure.pure, Except.pure]

theorem detect_sieve_short_circuit_witness :
    DuplicateDetector.detect extEx ⟨dbEx, idxEx⟩ "q.jpg" 3 =
      .ok ⟨true, "sieve", some "other.jpg", some (.inl 0), [("other.jpg", 0)], []⟩ :=
  (detect_sieve_short_circuit extEx ⟨dbEx, idxEx⟩ "q.jpg" 3 ("other.jpg", 0) []
    (by rfl)).1

/-- C2: when the sieve finds nothing, detect searches the vector index with k =
top_k + 5, drops results resolving to the query path, keeps the ones at or above
the similarity threshold, and returns a verifier-stage verdict on the
highest-scoring survivor, or a unique verdict with null match and score when none
survive. -/
theorem detect_verifier_or_unique (ext : Externals) (d : DuplicateDetector)
    (path : String) (top_k : Nat) (hk : 1 ≤ top_k)
    (h : sieve ext.resolve d.hash_db (ext.loadImage path) (some path) top_k =
      .ok []) :
    ((((d.indexer.search (ext.embed path) (top_k + 5)).filter fun r =>
          !(ext.resolve r.filename == ext.resolve (ext.resolve path))).filter
        fun r => SSCD_SIM_THRESHOLD ≤ r.score) = [] →
      DuplicateDetector.detect ext d path top_k =
        .ok ⟨false, "unique", none, none, [], []⟩) ∧
    ∀ b bs, (((d.indexer.search (ext.embed path) (top_k + 5)).filter fun r =>
          !(ext.resolve r.filename == ext.resolve (ext.resolve path))).filter
        fun r => SSCD_SIM_THRESHOLD ≤ r.score) = b :: bs →
      ∃ v : Verdict, DuplicateDetector.detect ext d path top_k = .ok v ∧
        v.is_duplicate = true ∧ v.stage = "verifier" ∧
        v.matched = some b.filename ∧ v.score = some (.inr b.score) ∧
        ∀ r ∈ b :: bs, r.score ≤ b.score := by
  set results := d.indexer.search (ext.embed path) (top_k + 5) with hres
  set filtered := results.filter fun r =>
    !(ext.resolve r.filename == ext.resolve (ext.resolve path)) with hfil
  have hsorted : filtered.Pairwise fun a b => b.score ≤ a.score :=
    (search_pairwise d.indexer (ext.embed path) (top_k + 5)).filter _
  have hft := filter_take_sorted filtered top_k hk hsorted
  have hdet : DuplicateDetector.detect ext d path top_k =
      .ok ⟨!((filtered.take top_k).filter fun r =>
              SSCD_SIM_THRESHOLD ≤ r.score).isEmpty,
            if ((filtered.take top_k).filter fun r =>
              SSCD_SIM_THRESHOLD ≤ r.score).isEmpty then "unique" else "verifier",
            ((filtered.take top_k).filter fun r =>
              SSCD_SIM_THRESHOLD ≤ r.score).head?.map SearchResult.filename,
            ((filtered.take top_k).filter fun r =>
              SSCD_SIM_THRESHOLD ≤ r.score).head?.map fun m => .inr m.score,
            [],
            (filtered.take top_k).filter fun r =>
              SSCD_SIM_THRESHOLD ≤ r.score⟩ := by
    simp only [DuplicateDetector.detect, h, Bind.bind, Except.bind,
      DuplicateDetector.verify, Pure.pure, Except.pure, hfil, hres]
  constructor
  · intro hempty
    have hv : ((filtered.take top_k).filter fun r =>
        SSCD_SIM_THRESHOLD ≤ r.score) = [] := hft.1.mpr hempty
    rw [hdet, hv]
    simp
  · intro b bs hsurv
    have hhead : ((filtered.take top_k).filter fun r =>
        SSCD_SIM_THRESHOLD ≤ r.score).head? = some b := by
      rw [hft.2, hsurv]
      rfl
    have hne : ((filtered.take top_k).filter fun r =>
        SSCD_SIM_THRESHOLD ≤ r.score) ≠ [] := by
      intro hc
      rw [hc] at hhead
      simp at hhead
    refine ⟨_, hdet, ?_, ?_, ?_, ?_, ?_⟩
    · simp [List.isEmpty_eq_true, hne]
    · simp [List.isEmpty_eq_true, hne]
    · simp [hhead]
    · simp [hhead]
    · intro r hr
      have hsp : (b :: bs).Pairwise fun a b => b.score ≤ a.score := by
        rw [← hsurv]
        exact hsorted.filter _
      rcases List.mem_cons.mp hr with rfl | hr
      · exact le_refl _
      · exact (List.pairwise_cons.mp hsp).1 r hr

theorem searchEx : Indexer.search idxEx [1] 8 = [⟨"v.jpg", 1, 0⟩] := by
  rw [search_eq_filterMap_top]
  norm_num [idxEx, sortLe, insertLe, dot, scoreGe]
  simp [List.filterMap_cons]

theorem survivorsEx :
    (((Indexer.search (⟨[], idxEx⟩ : DuplicateDetector).indexer
          (extEx.embed "q.jpg") (3 + 5)).filter fun r =>
        !(extEx.resolve r.filename == extEx.resolve (extEx.resolve "q.jpg"))).filter
      fun r => SSCD_SIM_THRESHOLD ≤ r.score) =
      (⟨"v.jpg", 1, 0⟩ : SearchResult) :: [] := by
  have h : Indexer.search (⟨[], idxEx⟩ : DuplicateDetector).indexer
      (extEx.embed "q.jpg") (3 + 5) = [⟨"v.jpg", 1, 0⟩] := searchEx
  rw [h]
  rw [show (SSCD_SIM_THRESHOLD : ℚ) = 13 / 20 by norm_num [SSCD_SIM_THRESHOLD]]
  norm_num [extEx]
  decide

theorem detect_verifier_or_unique_witness :
    ∃ v : Verdict, DuplicateDetector.detect extEx ⟨[], idxEx⟩ "q.jpg" 3 = .ok v ∧
      v.is_duplicate = true ∧ v.stage = "verifier" ∧
      v.matched = some (SearchResult.filename ⟨"v.jpg", 1, 0⟩) ∧
      v.score = some (.inr (SearchResult.score ⟨"v.jpg", 1, 0⟩)) ∧
      ∀ r ∈ (⟨"v.jpg", 1, 0⟩ : SearchResult) :: ([] : List SearchResult),
        r.score ≤ SearchResult.score ⟨"v.jpg", 1, 0⟩ :=
  (detect_verifier_or_unique extEx ⟨[], idxEx⟩ "q.jpg" 3 (by decide) rfl).2
    ⟨"v.jpg", 1, 0⟩ [] survivorsEx

end NearDup
